import Mathlib

/-!
Shallow embedding of the two pure engines of `hyperliquid-trade`:

* the position-lifecycle reconstructor of `src/src/app/trades/page.tsx`
  (`reconstructPositions` together with its inner `commitIfClosed` closure
  and per-fill loop body), and
* the order-book helpers of `src/src/app/orderbook/page.tsx`
  (`normalizeBook`, `calcMaxSize` and the cumulative-depth computation
  `bidsCum`/`asksCum`).

Sizes, prices and P&L values are JS numbers used as exact decimals; they are
modelled as `ℚ`.  Timestamps are millisecond integers, modelled as `ℤ`.
A JS number that can be `NaN` (the result of `Number(string)`) is modelled
as `Option ℚ` with `none` standing for `NaN`.
-/

namespace HyperliquidTrade

/-- Fill side: `"B"` (buy) or `"S"` (sell), from the `Fill` type of
`trades/page.tsx`. -/
inductive Side where
  | B
  | S
deriving DecidableEq

/-- Position direction, `"long" | "short"` in the source. -/
inductive Direction where
  | long
  | short
deriving DecidableEq

/-- A trade fill, from `type Fill` of `trades/page.tsx` (the optional
`cloid` field is never read by the engine and is omitted). -/
structure Fill where
  coin : String
  side : Side
  sz : ℚ
  px : ℚ
  time : ℤ
deriving DecidableEq

/-- Output record, `type PositionLifecycle` of `trades/page.tsx`. -/
structure PositionLifecycle where
  coin : String
  direction : Direction
  openTime : ℤ
  closeTime : ℤ
  durationMs : ℤ
  realizedPnlUsd : ℚ
deriving DecidableEq

/-- The per-coin running state of `reconstructPositions` (the local
variables `positionSide`, `positionSize`, `openTime`, `realizedPnl`,
`avgEntryPx` of lines 45-49). -/
structure CoinState where
  positionSide : Option Direction
  positionSize : ℚ
  openTime : ℤ
  realizedPnl : ℚ
  avgEntryPx : ℚ
deriving DecidableEq

/-- Initial per-coin state (`null`, `0`, `0`, `0`, `0`). -/
def initState : CoinState := ⟨none, 0, 0, 0, 0⟩

/-- `const signedSz = f.side === "B" ? f.sz : -f.sz` (line 69). -/
def fillSignedSz (f : Fill) : ℚ :=
  match f.side with
  | .B => f.sz
  | .S => -f.sz

/-- The `commitIfClosed` closure (lines 51-66).  The JS guard is
`positionSide && positionSize === 0 && openTime`; `openTime` is a number,
so its truthiness means `openTime ≠ 0`. -/
def commitIfClosed (coin : String) (closeTime : ℤ)
    (st : CoinState) (acc : List PositionLifecycle) :
    CoinState × List PositionLifecycle :=
  match st.positionSide with
  | some d =>
      if st.positionSize = 0 ∧ st.openTime ≠ 0 then
        (⟨none, st.positionSize, 0, 0, 0⟩,
         acc ++ [⟨coin, d, st.openTime, closeTime,
                  max 0 (closeTime - st.openTime), st.realizedPnl⟩])
      else (st, acc)
  | none => (st, acc)

/-- The body of the per-fill loop (lines 68-92) of `reconstructPositions`,
acting on the running state together with the `results` pushed so far. -/
def stepFill (coin : String) (sa : CoinState × List PositionLifecycle)
    (f : Fill) : CoinState × List PositionLifecycle :=
  let st := sa.1
  let acc := sa.2
  let s := fillSignedSz f
  if st.positionSize = 0 then
    ({ st with
        positionSize := s
        positionSide := some (if 0 < s then .long else .short)
        openTime := f.time
        avgEntryPx := f.px }, acc)
  else if (0 < st.positionSize ∧ 0 < s) ∨ (st.positionSize < 0 ∧ s < 0) then
    let totalSz := |st.positionSize| + |s|
    ({ st with
        avgEntryPx := (st.avgEntryPx * |st.positionSize| + f.px * |s|) / totalSz
        positionSize := st.positionSize + s }, acc)
  else
    let reduceSz := min |st.positionSize| |s|
    let pnlPerUnit := (f.px - st.avgEntryPx) * (if 0 < st.positionSize then 1 else -1)
    let st2 := { st with
        realizedPnl := st.realizedPnl + pnlPerUnit * reduceSz
        positionSize := st.positionSize + s }
    if st2.positionSize = 0 then commitIfClosed coin f.time st2 acc
    else (st2, acc)

/-- Processing of one coin's fill list, in order: the loop of lines 68-92
run from the reset state with an empty `results` fragment. -/
def runFills (coin : String) (fs : List Fill) :
    CoinState × List PositionLifecycle :=
  fs.foldl (stepFill coin) (initState, [])

/-- Stable insertion of a fill by ascending `time`, modelling the stable
`coinFills.sort((a, b) => a.time - b.time)` of line 44. -/
def insertFillByTime (f : Fill) : List Fill → List Fill
  | [] => [f]
  | g :: gs => if f.time ≤ g.time then f :: g :: gs else g :: insertFillByTime f gs

/-- Stable sort of fills by ascending `time` (line 44). -/
def sortFillsByTime : List Fill → List Fill
  | [] => []
  | f :: fs => insertFillByTime f (sortFillsByTime fs)

/-- Stable insertion of a record by descending `closeTime`, modelling the
stable `results.sort((a, b) => b.closeTime - a.closeTime)` of line 95. -/
def insertRecByCloseDesc (r : PositionLifecycle) :
    List PositionLifecycle → List PositionLifecycle
  | [] => [r]
  | q :: qs =>
      if q.closeTime ≤ r.closeTime then r :: q :: qs
      else q :: insertRecByCloseDesc r qs

/-- Stable sort of the results by descending `closeTime` (line 95). -/
def sortRecsByCloseDesc : List PositionLifecycle → List PositionLifecycle
  | [] => []
  | r :: rs => insertRecByCloseDesc r (sortRecsByCloseDesc rs)

/-- The coins in first-occurrence order: `Object.keys(byCoin)` where
`byCoin` is filled by pushing each fill's coin in input order
(lines 38-41, 43). -/
def coinList (fills : List Fill) : List String :=
  fills.foldl (fun cs f => if f.coin ∈ cs then cs else cs ++ [f.coin]) []

/-- `reconstructPositions` (lines 36-96): group the fills by coin, sort each
group by time, run the per-fill loop, collect the committed records of every
coin and sort them by descending `closeTime`. -/
def reconstructPositions (fills : List Fill) : List PositionLifecycle :=
  sortRecsByCloseDesc
    (((coinList fills).map (fun c =>
        (runFills c (sortFillsByTime (fills.filter (fun f => f.coin = c)))).2)).flatten)

/-! ### Order-book page (`src/src/app/orderbook/page.tsx`) -/

/-- A JS number that may be `NaN`: `none` models `NaN`, `some q` a finite
numeric value. -/
abbrev JsNum := Option ℚ

/-- One raw snapshot level `{px: string, sz: string, n: number}` of
`RestBookResponse`. -/
structure RawLevel where
  px : String
  sz : String
  n : ℕ
deriving DecidableEq

/-- The fields of a book payload that `normalizeBook` inspects: an optional
snapshot ladder pair `levels` and optional incremental `bids`/`asks`
arrays (`none` models an absent field). -/
structure BookPayload where
  levels : Option (List RawLevel × List RawLevel)
  bids : Option (List (JsNum × JsNum))
  asks : Option (List (JsNum × JsNum))

/-- The normalized result `{bids, asks}` of `normalizeBook`. -/
structure NormBook where
  bids : List (JsNum × JsNum)
  asks : List (JsNum × JsNum)
deriving DecidableEq

/-- Digit string to a natural number, most significant digit first. -/
def digitsToNat (cs : List Char) : ℕ :=
  cs.foldl (fun a c => a * 10 + (c.toNat - 48)) 0

/-- Unsigned part of JS `Number(string)` on the decimal fragment:
optional integer digits, optionally followed by `.` and fraction digits,
with at least one digit overall; anything else is `NaN` (`none`). -/
def parseUnsigned (cs : List Char) : JsNum :=
  let intPart := cs.takeWhile (fun c => c.isDigit)
  let rest := cs.dropWhile (fun c => c.isDigit)
  match rest with
  | [] => if intPart = [] then none else some (digitsToNat intPart)
  | '.' :: frac =>
      if frac.all (fun c => c.isDigit) then
        if intPart = [] ∧ frac = [] then none
        else some ((digitsToNat intPart : ℚ) +
          (digitsToNat frac : ℚ) / (10 : ℚ) ^ frac.length)
      else none
  | _ => none

/-- JS `Number(string)` as used on the `px`/`sz` fields (lines 52-53):
the empty string coerces to `0`; an optional sign followed by decimal
digits parses to the value; any other string gives `NaN` (modelled
`none`).  Surrounding whitespace, exponent and hex forms do not occur in
this feed's `px`/`sz` strings and are outside the modelled fragment. -/
def jsNumber (s : String) : JsNum :=
  match s.data with
  | [] => some 0
  | '-' :: rest => (parseUnsigned rest).map (fun q => -q)
  | '+' :: rest => parseUnsigned rest
  | cs => parseUnsigned cs

/-- `normalizeBook` (lines 49-61): if the payload has a (truthy) `levels`
field, parse the two string ladders with `Number`; otherwise, if it has
both `bids` and `asks`, pass them through; otherwise return `null`. -/
def normalizeBook (input : BookPayload) : Option NormBook :=
  match input.levels with
  | some (bRaw, aRaw) =>
      some ⟨bRaw.map (fun l => (jsNumber l.px, jsNumber l.sz)),
            aRaw.map (fun l => (jsNumber l.px, jsNumber l.sz))⟩
  | none =>
      match input.bids, input.asks with
      | some bs, some aks => some ⟨bs, aks⟩
      | _, _ => none

/-- A displayed price level `[price, size]` (`type L2Level`), in the
NaN-free fragment the depth helpers operate on. -/
abbrev L2Level := ℚ × ℚ

/-- The loop of `calcMaxSize` (lines 42-45): running maximum of the level
sizes, starting from `0`. -/
def maxFold (m : ℚ) : List L2Level → ℚ
  | [] => m
  | (_, size) :: rest => maxFold (if m < size then size else m) rest

/-- `calcMaxSize` (lines 41-47): the largest level size, with `max || 1`
replacing a zero maximum by `1`. -/
def calcMaxSize (levels : List L2Level) : ℚ :=
  let m := maxFold 0 levels
  if m = 0 then 1 else m

/-- One row of the depth table: price, size and cumulative size
(`{p, s, t}` as built in `bidsCum`/`asksCum`). -/
structure DepthRow where
  p : ℚ
  s : ℚ
  t : ℚ
deriving DecidableEq

/-- The mapping body of `bidsCum`/`asksCum` with its running accumulator
`cum` (lines 170-184). -/
def depthGo (cum : ℚ) : List L2Level → List DepthRow
  | [] => []
  | (p, s) :: rest => ⟨p, s, cum + s⟩ :: depthGo (cum + s) rest

/-- The depth computation of `bidsCum`/`asksCum`: walk the side in order,
attaching the running cumulative size, starting from `cum = 0`. -/
def computeDepth (side : List L2Level) : List DepthRow := depthGo 0 side

end HyperliquidTrade

namespace HyperliquidTrade

/-! ### Helper lemmas -/

lemma depthGo_map_proj (side : List L2Level) :
    ∀ cum : ℚ, (depthGo cum side).map (fun r => (r.p, r.s)) = side := by
  induction side with
  | nil => intro cum; rfl
  | cons hd tl ih =>
      intro cum
      obtain ⟨p, s⟩ := hd
      simp [depthGo, ih]

lemma maxFold_spec (l : List L2Level) :
    ∀ m : ℚ,
      (maxFold m l = m ∨ ∃ pr ∈ l, maxFold m l = pr.2) ∧
      m ≤ maxFold m l ∧ ∀ pr ∈ l, pr.2 ≤ maxFold m l := by
  induction l with
  | nil => intro m; simp [maxFold]
  | cons hd tl ih =>
      intro m
      obtain ⟨p, s⟩ := hd
      rw [show maxFold m ((p, s) :: tl) = maxFold (if m < s then s else m) tl from rfl]
      by_cases h : m < s
      · rw [if_pos h]
        obtain ⟨h1, h2, h3⟩ := ih s
        refine ⟨?_, le_trans (le_of_lt h) h2, ?_⟩
        · rcases h1 with h1 | ⟨pr, hpr, he⟩
          · exact Or.inr ⟨(p, s), by simp, h1⟩
          · exact Or.inr ⟨pr, by simp [hpr], he⟩
        · intro pr hpr
          rcases List.mem_cons.mp hpr with rfl | hm
          · exact h2
          · exact h3 pr hm
      · rw [if_neg h]
        obtain ⟨h1, h2, h3⟩ := ih m
        refine ⟨?_, h2, ?_⟩
        · rcases h1 with h1 | ⟨pr, hpr, he⟩
          · exact Or.inl h1
          · exact Or.inr ⟨pr, by simp [hpr], he⟩
        · intro pr hpr
          rcases List.mem_cons.mp hpr with rfl | hm
          · exact le_trans (not_lt.mp h) h2
          · exact h3 pr hm

lemma mem_insertRecByCloseDesc (r x : PositionLifecycle) :
    ∀ l : List PositionLifecycle, x ∈ insertRecByCloseDesc r l → x = r ∨ x ∈ l := by
  intro l
  induction l with
  | nil => simp [insertRecByCloseDesc]
  | cons q qs ih =>
      rw [insertRecByCloseDesc]
      by_cases h : q.closeTime ≤ r.closeTime
      · rw [if_pos h]
        intro hx
        rcases List.mem_cons.mp hx with rfl | hx
        · exact Or.inl rfl
        · exact Or.inr hx
      · rw [if_neg h]
        intro hx
        rcases List.mem_cons.mp hx with rfl | hx
        · exact Or.inr (List.mem_cons_self _ _)
        · rcases ih hx with h1 | h1
          · exact Or.inl h1
          · exact Or.inr (List.mem_cons_of_mem _ h1)

lemma sorted_insertRecByCloseDesc (r : PositionLifecycle) :
    ∀ l : List PositionLifecycle,
      List.Pairwise (fun a b => b.closeTime ≤ a.closeTime) l →
      List.Pairwise (fun a b => b.closeTime ≤ a.closeTime) (insertRecByCloseDesc r l) := by
  intro l
  induction l with
  | nil => intro _; simp [insertRecByCloseDesc]
  | cons q qs ih =>
      intro hl
      obtain ⟨hq, hqs⟩ := List.pairwise_cons.mp hl
      rw [insertRecByCloseDesc]
      by_cases h : q.closeTime ≤ r.closeTime
      · rw [if_pos h]
        refine List.pairwise_cons.mpr ⟨?_, hl⟩
        intro x hx
        rcases List.mem_cons.mp hx with rfl | hx
        · exact h
        · exact le_trans (hq x hx) h
      · rw [if_neg h]
        refine List.pairwise_cons.mpr ⟨?_, ih hqs⟩
        intro x hx
        rcases mem_insertRecByCloseDesc r x qs hx with rfl | hx
        · exact le_of_lt (not_le.mp h)
        · exact hq x hx

lemma sorted_sortRecsByCloseDesc :
    ∀ l : List PositionLifecycle,
      List.Pairwise (fun a b => b.closeTime ≤ a.closeTime) (sortRecsByCloseDesc l) := by
  intro l
  induction l with
  | nil => simp [sortRecsByCloseDesc]
  | cons r rs ih => exact sorted_insertRecByCloseDesc r _ ih

/-- The successive running states reached by the per-fill loop, starting
from the given state/results pair. -/
def scanStates (coin : String) (sa : CoinState × List PositionLifecycle) :
    List Fill → List CoinState
  | [] => []
  | f :: fs => (stepFill coin sa f).1 :: scanStates coin (stepFill coin sa f) fs

lemma commitIfClosed_positionSize (coin : String) (t : ℤ) (st : CoinState)
    (acc : List PositionLifecycle) :
    (commitIfClosed coin t st acc).1.positionSize = st.positionSize := by
  rw [commitIfClosed]
  split
  · split <;> rfl
  · rfl

lemma stepFill_acc_of_pos (coin : String) (sa : CoinState × List PositionLifecycle)
    (f : Fill) (h : (stepFill coin sa f).1.positionSize ≠ 0) :
    (stepFill coin sa f).2 = sa.2 := by
  revert h
  rw [stepFill]
  by_cases h0 : sa.1.positionSize = 0
  · rw [if_pos h0]; intro _; rfl
  · rw [if_neg h0]
    by_cases h1 : (0 < sa.1.positionSize ∧ 0 < fillSignedSz f) ∨
        (sa.1.positionSize < 0 ∧ fillSignedSz f < 0)
    · rw [if_pos h1]; intro _; rfl
    · rw [if_neg h1]
      by_cases h2 : sa.1.positionSize + fillSignedSz f = 0
      · rw [if_pos h2]
        intro hc
        exfalso
        apply hc
        rw [commitIfClosed_positionSize]
        exact h2
      · rw [if_neg h2]; intro _; rfl

lemma foldl_acc_of_never_zero (coin : String) :
    ∀ (ts : List Fill) (sa : CoinState × List PositionLifecycle),
      (∀ s ∈ scanStates coin sa ts, s.positionSize ≠ 0) →
      (ts.foldl (stepFill coin) sa).2 = sa.2 := by
  intro ts
  induction ts with
  | nil => intro sa _; rfl
  | cons f fs ih =>
      intro sa h
      have h1 : (stepFill coin sa f).1.positionSize ≠ 0 := by
        apply h
        simp [scanStates]
      have h2 : ∀ s ∈ scanStates coin (stepFill coin sa f) fs, s.positionSize ≠ 0 := by
        intro s hs
        apply h
        simp [scanStates, hs]
      rw [List.foldl_cons, ih (stepFill coin sa f) h2, stepFill_acc_of_pos coin sa f h1]

/-! ### Claims -/

/-- C1: the spec's round-trip scenario `[(buy,1,100,t=0), (sell,1,110,t=10)]`
for `"ETH"` is required to yield exactly one record
`(ETH, long, 0, 10, 10, 10)`; the code instead returns the empty list,
because `commitIfClosed` tests the truthiness of `openTime` and a position
opened at timestamp `0` is therefore never committed.  Shifting every
timestamp by one (open at `1`, close at `11`) produces exactly the claimed
record, isolating the `openTime = 0` guard as the sole cause. -/
theorem c1_roundtrip_scenario :
    reconstructPositions [⟨"ETH", .B, 1, 100, 0⟩, ⟨"ETH", .S, 1, 110, 10⟩] = [] ∧
    reconstructPositions [⟨"ETH", .B, 1, 100, 1⟩, ⟨"ETH", .S, 1, 110, 11⟩] =
      [⟨"ETH", .long, 1, 11, 10, 10⟩] := by
  constructor <;>
    norm_num [reconstructPositions, coinList, sortFillsByTime, insertFillByTime,
      runFills, stepFill, fillSignedSz, commitIfClosed, sortRecsByCloseDesc,
      insertRecByCloseDesc, initState, List.filter]

/-- C2 counterexample: a fill with `px = 0 ≤ 0` is not excluded from
accumulation: when flat, it changes `signedSize` from `0` to `1`, and the
whole sequence `[(buy,1,px=0,t=1), (sell,1,px=10,t=5)]` yields a record
whose P&L is computed against the non-positive entry price — the claim
would require the first fill to be skipped, leaving only an unclosed short
and hence no record. -/
theorem c2_counterexample :
    (⟨"ETH", .B, 1, 0, 1⟩ : Fill).px ≤ 0 ∧
    reconstructPositions [⟨"ETH", .B, 1, 0, 1⟩, ⟨"ETH", .S, 1, 10, 5⟩] =
      [⟨"ETH", .long, 1, 5, 4, 10⟩] ∧
    (stepFill "ETH" (initState, []) ⟨"ETH", .B, 1, 0, 1⟩).1.positionSize ≠
      initState.positionSize := by
  refine ⟨le_refl 0, ?_, ?_⟩ <;>
    norm_num [reconstructPositions, coinList, sortFillsByTime, insertFillByTime,
      runFills, stepFill, fillSignedSz, commitIfClosed, sortRecsByCloseDesc,
      insertRecByCloseDesc, initState, List.filter]

/-- C2 amended: the loop performs no size/price validation at all.  What
does hold is that a `size = 0` fill processed while a position is open
leaves the running state (in particular `avgEntryPrice` and `signedSize`)
and the emitted records completely unchanged, because its reduce amount is
`min(|signedSize|, 0) = 0`; fills with non-positive price, or size-0 fills
arriving while flat, are processed like any other fill. -/
theorem c2_no_fill_validation (coin : String) (s : CoinState)
    (acc : List PositionLifecycle) (f : Fill)
    (hpos : s.positionSize ≠ 0) (hsz : f.sz = 0) :
    stepFill coin (s, acc) f = (s, acc) := by
  have hs : fillSignedSz f = 0 := by
    cases hsd : f.side <;> simp [fillSignedSz, hsd, hsz]
  simp only [stepFill, hs]
  rw [if_neg hpos]
  rw [if_neg (by rintro (⟨_, h2⟩ | ⟨_, h2⟩) <;> exact lt_irrefl 0 h2)]
  simp [hpos]

/-- C2 witness: a size-0 fill against an open long position of size 1 is a
no-op. -/
theorem c2_no_fill_validation_witness :
    stepFill "ETH" (⟨some .long, 1, 1, 0, 100⟩, []) ⟨"ETH", .B, 0, 0, 5⟩ =
      (⟨some .long, 1, 1, 0, 100⟩, []) :=
  c2_no_fill_validation "ETH" ⟨some .long, 1, 1, 0, 100⟩ [] ⟨"ETH", .B, 0, 0, 5⟩
    (by norm_num) rfl

/-- C3: the same-direction branch does compute the size-weighted average
(after the two buys the internal `avgEntryPrice` is `110` and the size is
`2`), but the claimed single closing record with `realizedPnlUsd = 40` is
not produced for the spec's scenario: the position opens at `t = 0`, so
`commitIfClosed`'s truthiness test on `openTime` discards the completed
round trip and the function returns the empty list.  With every timestamp
shifted by one the exact claimed record (P&L `40`) is emitted. -/
theorem c3_averaging_scenario :
    (runFills "ETH" [⟨"ETH", .B, 1, 100, 0⟩, ⟨"ETH", .B, 1, 120, 5⟩]).1.avgEntryPx = 110 ∧
    (runFills "ETH" [⟨"ETH", .B, 1, 100, 0⟩, ⟨"ETH", .B, 1, 120, 5⟩]).1.positionSize = 2 ∧
    reconstructPositions
      [⟨"ETH", .B, 1, 100, 0⟩, ⟨"ETH", .B, 1, 120, 5⟩, ⟨"ETH", .S, 2, 130, 10⟩] = [] ∧
    reconstructPositions
      [⟨"ETH", .B, 1, 100, 1⟩, ⟨"ETH", .B, 1, 120, 6⟩, ⟨"ETH", .S, 2, 130, 11⟩] =
      [⟨"ETH", .long, 1, 11, 10, 40⟩] := by
  refine ⟨?_, ?_, ?_, ?_⟩ <;>
    norm_num [reconstructPositions, coinList, sortFillsByTime, insertFillByTime,
      runFills, stepFill, fillSignedSz, commitIfClosed, sortRecsByCloseDesc,
      insertRecByCloseDesc, initState, List.filter]

/-- C4 counterexample: an unparseable numeric field does not propagate as
an error: `Number("abc")` is `NaN` (modelled `none`) and `normalizeBook`
still returns a (successful) book containing that `NaN`; moreover the
empty string is silently coerced to `0`. -/
theorem c4_counterexample :
    jsNumber "abc" = none ∧
    normalizeBook ⟨some ([⟨"abc", "1", 0⟩], []), none, none⟩ =
      some ⟨[(none, some 1)], []⟩ ∧
    jsNumber "" = some 0 := by decide

/-- C4 amended: for every snapshot-shaped payload, `normalizeBook` maps
each level's string fields through JS `Number` semantics and always
returns a book: a parseable decimal string becomes its numeric value, an
unparseable one becomes `NaN` (modelled `none`) inside the returned book,
and no error is ever raised. -/
theorem c4_parse_no_error (p : BookPayload) (bs aks : List RawLevel)
    (h : p.levels = some (bs, aks)) :
    normalizeBook p =
      some ⟨bs.map (fun l => (jsNumber l.px, jsNumber l.sz)),
            aks.map (fun l => (jsNumber l.px, jsNumber l.sz))⟩ := by
  simp [normalizeBook, h]

/-- C4 witness: a concrete snapshot with one parseable and one unparseable
level. -/
theorem c4_parse_no_error_witness :
    normalizeBook ⟨some ([⟨"1.5", "2", 3⟩], [⟨"abc", "", 0⟩]), none, none⟩ =
      some ⟨[(jsNumber "1.5", jsNumber "2")], [(jsNumber "abc", jsNumber "")]⟩ := by
  simpa using c4_parse_no_error ⟨some ([⟨"1.5", "2", 3⟩], [⟨"abc", "", 0⟩]), none, none⟩
    [⟨"1.5", "2", 3⟩] [⟨"abc", "", 0⟩] rfl

/-- C5: a payload with no `levels` field and without both `bids` and
`asks` makes `normalizeBook` return `null`; being a total Lean function
it cannot throw. -/
theorem c5_neither_shape_null (p : BookPayload) (hl : p.levels = none)
    (h : p.bids = none ∨ p.asks = none) :
    normalizeBook p = none := by
  rcases p with ⟨l, b, a⟩
  simp only at hl
  subst hl
  rcases h with h | h <;> simp only at h <;> subst h
  · rfl
  · cases b <;> rfl

/-- C5 witness: a payload carrying only `bids`. -/
theorem c5_neither_shape_null_witness : normalizeBook ⟨none, some [], none⟩ = none :=
  c5_neither_shape_null ⟨none, some [], none⟩ rfl (Or.inr rfl)

/-- C6: the depth computation preserves the input order (projecting each
row back to its price/size pair returns the side unchanged) and assigns
running cumulative sums: on `[(p1,s1), (p2,s2), (p3,s3)]` the cumulative
sizes are exactly `[s1, s1+s2, s1+s2+s3]`. -/
theorem c6_depth_cumulative :
    (∀ side : List L2Level,
        (computeDepth side).map (fun r => (r.p, r.s)) = side) ∧
    (∀ p1 s1 p2 s2 p3 s3 : ℚ,
        computeDepth [(p1, s1), (p2, s2), (p3, s3)] =
          [⟨p1, s1, s1⟩, ⟨p2, s2, s1 + s2⟩, ⟨p3, s3, s1 + s2 + s3⟩]) := by
  constructor
  · intro side
    exact depthGo_map_proj side 0
  · intro p1 s1 p2 s2 p3 s3
    simp [computeDepth, depthGo, zero_add]

/-- C7 counterexample: `calcMaxSize` does not enforce a minimum of `1`:
for the side `[(10, 0.5)]` it returns `0.5 < 1`, because the JS `max || 1`
fallback only replaces an exactly-zero maximum. -/
theorem c7_counterexample :
    calcMaxSize [(10, 1 / 2)] = 1 / 2 ∧ calcMaxSize [(10, 1 / 2)] < 1 := by
  norm_num [calcMaxSize, maxFold]

/-- C7 amended: `calcMaxSize` returns the maximum individual level size,
except that a zero maximum (in particular an empty side, or one with only
non-positive sizes) is replaced by `1`; the two concrete examples
`calcMaxSize [] = 1` and `calcMaxSize [(10,5),(11,9)] = 9` hold. -/
theorem c7_maxsize_floor_at_zero :
    calcMaxSize [] = 1 ∧
    calcMaxSize [(10, 5), (11, 9)] = 9 ∧
    ∀ levels : List L2Level,
      (calcMaxSize levels = 1 ∧ ∀ pr ∈ levels, pr.2 ≤ 0) ∨
      ((∃ pr ∈ levels, pr.2 = calcMaxSize levels) ∧
        ∀ pr ∈ levels, pr.2 ≤ calcMaxSize levels) := by
  refine ⟨by norm_num [calcMaxSize, maxFold], by norm_num [calcMaxSize, maxFold], ?_⟩
  intro levels
  obtain ⟨h1, h2, h3⟩ := maxFold_spec levels 0
  by_cases hm : maxFold 0 levels = 0
  · left
    constructor
    · simp [calcMaxSize, hm]
    · intro pr hpr
      have hb := h3 pr hpr
      rw [hm] at hb
      exact hb
  · right
    have hc : calcMaxSize levels = maxFold 0 levels := by
      simp [calcMaxSize, hm]
    constructor
    · rcases h1 with h1 | ⟨pr, hpr, he⟩
      · exact absurd h1 hm
      · exact ⟨pr, hpr, by rw [hc, he]⟩
    · intro pr hpr
      rw [hc]
      exact h3 pr hpr

/-- C7 witness: the characterization applied to the singleton side
`[(10, 5)]`. -/
theorem c7_maxsize_floor_at_zero_witness :
    (calcMaxSize [((10 : ℚ), (5 : ℚ))] = 1 ∧
      ∀ pr ∈ [((10 : ℚ), (5 : ℚ))], pr.2 ≤ 0) ∨
    ((∃ pr ∈ [((10 : ℚ), (5 : ℚ))], pr.2 = calcMaxSize [((10 : ℚ), (5 : ℚ))]) ∧
      ∀ pr ∈ [((10 : ℚ), (5 : ℚ))], pr.2 ≤ calcMaxSize [((10 : ℚ), (5 : ℚ))]) :=
  c7_maxsize_floor_at_zero.2.2 [(10, 5)]

/-- C8: for every fill sequence the output of `reconstructPositions` is
ordered by descending `closeTime`: every record is followed only by
records with a `closeTime` no larger than its own. -/
theorem c8_output_sorted_desc (fills : List Fill) :
    List.Pairwise (fun a b => b.closeTime ≤ a.closeTime)
      (reconstructPositions fills) :=
  sorted_sortRecsByCloseDesc _

/-- C9: fills appended after `fs` during whose processing the running
signed size never returns to zero (i.e. a position that is still open at
the end of the coin's fill list) contribute no record: the per-coin
results over `fs ++ ts` are exactly those over `fs`.  Records are only
ever pushed at a fill that brings the signed size back to exactly zero. -/
theorem c9_open_position_dropped (coin : String) (fs ts : List Fill)
    (h : ∀ s ∈ scanStates coin (runFills coin fs) ts, s.positionSize ≠ 0) :
    (runFills coin (fs ++ ts)).2 = (runFills coin fs).2 := by
  unfold runFills
  rw [List.foldl_append]
  exact foldl_acc_of_never_zero coin ts (runFills coin fs) h

/-- C9 witness: a closed round trip followed by a dangling buy of size 2
reports exactly the records of the round trip alone. -/
theorem c9_open_position_dropped_witness :
    (runFills "ETH"
      ([⟨"ETH", .B, 1, 100, 1⟩, ⟨"ETH", .S, 1, 110, 11⟩] ++ [⟨"ETH", .B, 2, 50, 20⟩])).2 =
    (runFills "ETH" [⟨"ETH", .B, 1, 100, 1⟩, ⟨"ETH", .S, 1, 110, 11⟩]).2 := by
  apply c9_open_position_dropped
  intro s hs
  norm_num [scanStates, runFills, stepFill, fillSignedSz, commitIfClosed, initState] at hs
  rw [hs]
  norm_num

/-- C10: an opposing fill whose magnitude strictly exceeds the open
position's magnitude (a flip through zero) emits no record: P&L is
accrued only on the reduced quantity `min(|signedSize|, |fill signed
size|) = |signedSize|`, the signed size crosses to the opposite sign, and
the direction, average entry price and open time of the working position
are left untouched for subsequent fills. -/
theorem c10_flip_no_record (coin : String) (s : CoinState)
    (acc : List PositionLifecycle) (f : Fill)
    (h : (0 < s.positionSize ∧ fillSignedSz f < -s.positionSize) ∨
         (s.positionSize < 0 ∧ -s.positionSize < fillSignedSz f)) :
    stepFill coin (s, acc) f =
      ({ s with
          positionSize := s.positionSize + fillSignedSz f
          realizedPnl := s.realizedPnl +
            ((f.px - s.avgEntryPx) * (if 0 < s.positionSize then 1 else -1)) *
              min |s.positionSize| |fillSignedSz f| }, acc) ∧
    min |s.positionSize| |fillSignedSz f| = |s.positionSize| ∧
    (s.positionSize + fillSignedSz f) * s.positionSize < 0 := by
  have hne : ¬ s.positionSize = 0 := by
    rcases h with ⟨h1, _⟩ | ⟨h1, _⟩ <;> [exact ne_of_gt h1; exact ne_of_lt h1]
  have hsame : ¬ ((0 < s.positionSize ∧ 0 < fillSignedSz f) ∨
      (s.positionSize < 0 ∧ fillSignedSz f < 0)) := by
    rcases h with ⟨h1, h2⟩ | ⟨h1, h2⟩ <;>
      rintro (⟨g1, g2⟩ | ⟨g1, g2⟩) <;> linarith
  have hflip : s.positionSize + fillSignedSz f ≠ 0 := by
    rcases h with ⟨h1, h2⟩ | ⟨h1, h2⟩
    · exact ne_of_lt (by linarith)
    · exact ne_of_gt (by linarith)
  refine ⟨?_, ?_, ?_⟩
  · rw [stepFill]
    dsimp only
    rw [if_neg hne, if_neg hsame, if_neg hflip]
  · rcases h with ⟨h1, h2⟩ | ⟨h1, h2⟩
    · rw [abs_of_pos h1, abs_of_neg (by linarith : fillSignedSz f < 0)]
      exact min_eq_left (by linarith)
    · rw [abs_of_neg h1, abs_of_pos (by linarith : 0 < fillSignedSz f)]
      exact min_eq_left (by linarith)
  · rcases h with ⟨h1, h2⟩ | ⟨h1, h2⟩
    · exact mul_neg_of_neg_of_pos (by linarith) h1
    · exact mul_neg_of_pos_of_neg (by linarith) h1

/-- C10 witness: a long of size 1 at average 100 hit by a sell of size 3
at 110 flips to size -2, banks P&L 10 on the closed unit, keeps the long
direction and the average entry of 100, and emits no record. -/
theorem c10_flip_no_record_witness :
    stepFill "ETH" (⟨some .long, 1, 5, 0, 100⟩, []) ⟨"ETH", .S, 3, 110, 10⟩ =
      (⟨some .long, -2, 5, 10, 100⟩, []) := by
  have h := c10_flip_no_record "ETH" ⟨some .long, 1, 5, 0, 100⟩ [] ⟨"ETH", .S, 3, 110, 10⟩
    (Or.inl ⟨by norm_num, by norm_num [fillSignedSz]⟩)
  rw [h.1]
  norm_num [fillSignedSz]

end HyperliquidTrade
